import Mathlib

/-!
Shallow embedding of the statistical method-selection logic of `app.py`,
a Streamlit front-end with three analysis modules:

* one-way comparison (t-test / Welch / Mann-Whitney / one-way ANOVA /
  Kruskal-Wallis) with normality (Shapiro) and homogeneity (Levene)
  diagnostics and post-hoc pairwise comparison;
* two-way ANOVA on a matrix input with Tukey HSD post-hoc;
* contingency-table analysis (Pearson chi-square / Fisher exact).

Cells are modelled as `Option ℚ`: `none` stands for a cell on which
`pd.to_numeric(..., errors='coerce')` produces NaN (empty or non-numeric).
The scipy/statsmodels routines contribute only p-values (or summary rows)
to the selection logic, so they are modelled as oracle fields of a record;
every branch, threshold, cleaning step and message of the selection logic
itself is translated from the source.
-/

namespace StatApp


/-- A wide one-way table: the columns, each a group name with its cells. -/
abbrev WideTable := List (String × List (Option ℚ))

/-- Per-column cleaning, `pd.to_numeric(df[c], errors='coerce').dropna().values`:
keep the numeric cells, in order. -/
def validVals (col : List (Option ℚ)) : List ℚ := col.filterMap id

/-- Cleaning loop of the one-way module (app.py lines 70-76): per column keep
the valid values and drop columns left empty. -/
def clean_data (t : WideTable) : List (String × List ℚ) :=
  (t.map (fun c => (c.1, validVals c.2))).filter (fun c => decide (0 < c.2.length))

/-- Oracle p-values for the scipy/statsmodels calls of the one-way module.
Each field returns the p-value of the corresponding library routine on the
given clean sample(s); `tukey` returns the significant (reject = True) rows
of `pairwise_tukeyhsd` on the long-format data, as (group1, group2, p-adj). -/
structure Stats where
  shapiro : List ℚ → ℚ
  levene : List (List ℚ) → ℚ
  ttest_ind : List ℚ → List ℚ → ℚ
  welch_ttest : List ℚ → List ℚ → ℚ
  mannwhitneyu : List ℚ → List ℚ → ℚ
  f_oneway : List (List ℚ) → ℚ
  kruskal : List (List ℚ) → ℚ
  tukey : List (String × ℚ) → List (String × String × ℚ)

/-- Normality loop (lines 89-99): `all_normal` is initialized `True`; every
group with at least 3 observations is Shapiro-tested and clears the flag when
its p ≤ 0.05; a smaller group is skipped. -/
def all_normal (s : Stats) (cd : List (String × List ℚ)) : Bool :=
  cd.foldl (fun acc g =>
    if 3 ≤ g.2.length then
      if (1 : ℚ)/20 < s.shapiro g.2 then acc else false
    else acc) true

/-- Levene branch (lines 101-108): homogeneous iff p > 0.05, with `is_homo`
false when fewer than 2 groups reach the test. -/
def is_homo (s : Stats) (groupVals : List (List ℚ)) : Bool :=
  if 2 ≤ groupVals.length then decide ((1 : ℚ)/20 < s.levene groupVals) else false

/-- Tests the one-way module can recommend (lines 115-136). -/
inductive Method
  | ttest
  | welch
  | mannwhitney
  | anova
  | kruskal
deriving DecidableEq, Repr

/-- Long-format reconstruction used for post-hoc and plotting (lines 146-149):
one (group, value) record per clean observation, column by column. -/
def longData (cd : List (String × List ℚ)) : List (String × ℚ) :=
  cd.flatMap (fun g => g.2.map (fun v => (g.1, v)))

/-- Dictionary access `clean_data[g]` (the Python dict is keyed by column
name; columns are assumed distinctly named, as in the data editor). -/
def dlookup (cd : List (String × List ℚ)) (g : String) : List ℚ :=
  ((cd.find? (fun c => c.1 == g)).map Prod.snd).getD []

/-- List indexing `group_vals[i]`. -/
def nth (l : List (List ℚ)) (i : Nat) : List ℚ := l.getD i []

/-- All unordered pairs, `itertools.combinations(groups, 2)`. -/
def combinations2 {α : Type} : List α → List (α × α)
  | [] => []
  | x :: xs => (xs.map (fun y => (x, y))) ++ combinations2 xs

/-- Bonferroni-corrected pairwise Mann-Whitney block (lines 160-173): the
pair list, the corrected alpha 0.05 / len(pairs), and the pairs found
significant against it with their raw p-values. -/
structure PosthocBonf where
  pairs : List (String × String)
  adjAlpha : ℚ
  sigPairs : List ((String × String) × ℚ)
deriving DecidableEq, Repr

/-- Post-hoc outcome: Tukey HSD rows on the ANOVA path, Bonferroni
Mann-Whitney otherwise (lines 151-173). -/
inductive PosthocResult
  | tukeyHSD (sig : List (String × String × ℚ))
  | bonf (b : PosthocBonf)
deriving DecidableEq, Repr

/-- Everything the one-way run reports: groups kept, diagnostic flags,
recommended method, its p-value, and the post-hoc block if it ran. -/
structure OneWayRun where
  groups : List String
  allNormal : Bool
  isHomo : Bool
  method : Method
  pVal : ℚ
  posthoc : Option PosthocResult
deriving DecidableEq, Repr

/-- Warning shown when fewer than two columns survive cleaning (line 81). -/
def oneWayWarnMsg : String := "⚠️ 请至少输入两列有效数据以进行比较。"

/-- Outcome of the one-way module: either the insufficient-groups warning or
a full run. -/
inductive OneWayOutcome
  | tooFewGroups (msg : String)
  | result (r : OneWayRun)
deriving DecidableEq, Repr

/-- Post-hoc block (lines 141-173): runs exactly when the overall p < 0.05
and more than two groups were compared; Tukey HSD on the ANOVA path,
Bonferroni-corrected pairwise Mann-Whitney otherwise.  The source dispatches
on the substring "ANOVA" in the method label; among the five labels this
module produces, exactly the one-way ANOVA label contains it, so the
dispatch is on `Method.anova`. -/
def posthocBlock (s : Stats) (cd : List (String × List ℚ)) (groups : List String)
    (method : Method) (pVal : ℚ) : Option PosthocResult :=
  if pVal < 1/20 ∧ 2 < groups.length then
    some (if method = .anova then .tukeyHSD (s.tukey (longData cd))
      else
        let pairs := combinations2 groups
        let adj : ℚ := (1/20) / (pairs.length : ℚ)
        .bonf ⟨pairs, adj,
          pairs.filterMap (fun pr =>
            let pp := s.mannwhitneyu (dlookup cd pr.1) (dlookup cd pr.2)
            if pp < adj then some (pr, pp) else none)⟩)
  else none

/-- One-way analysis pipeline (lines 68-173): clean the wide table, guard on
the usable group count, run the diagnostics, select and run the test
(lines 115-136), and run the post-hoc block. -/
def oneWayAnalyze (s : Stats) (t : WideTable) : OneWayOutcome :=
  let cd := clean_data t
  let groups := cd.map Prod.fst
  if groups.length < 2 then .tooFewGroups oneWayWarnMsg
  else
    let groupVals := cd.map Prod.snd
    let an := all_normal s cd
    let ih := is_homo s groupVals
    let mp : Method × ℚ :=
      if groups.length = 2 then
        if an && ih then (.ttest, s.ttest_ind (nth groupVals 0) (nth groupVals 1))
        else if an && !ih then (.welch, s.welch_ttest (nth groupVals 0) (nth groupVals 1))
        else (.mannwhitney, s.mannwhitneyu (nth groupVals 0) (nth groupVals 1))
      else
        if an && ih then (.anova, s.f_oneway groupVals)
        else (.kruskal, s.kruskal groupVals)
    .result ⟨groups, an, ih, mp.1, mp.2, posthocBlock s cd groups mp.1 mp.2⟩

/-- Constant oracle: every routine reports p = 1/2 and Tukey reports no
significant pair. -/
def constStats : Stats :=
  ⟨fun _ => 1/2, fun _ => 1/2, fun _ _ => 1/2, fun _ _ => 1/2, fun _ _ => 1/2,
   fun _ => 1/2, fun _ => 1/2, fun _ => []⟩

/-- Witness for C1 at a concrete three-group table. -/
def wt1 : WideTable :=
  [("A", [some 1, some 2, some 3]), ("B", [some 2, some 3, some 4]),
   ("C", [some 5, some 6, some 7])]

/-- Concrete run produced by `oneWayAnalyze constStats wt1`. -/
def wr1 : OneWayRun := ⟨["A", "B", "C"], true, true, .anova, 1/2, none⟩

/-- Witness for C2 at a concrete two-group table. -/
def wt2 : WideTable :=
  [("Control", [some 10, some 11, some 12]), ("Treatment", [some 14, some 15, some 16])]

/-- Concrete run produced by `oneWayAnalyze constStats wt2`. -/
def wr2 : OneWayRun := ⟨["Control", "Treatment"], true, true, .ttest, 1/2, none⟩

/-- Witness table for C6: two usable groups, each with fewer than 3 values. -/
def wt6 : WideTable := [("A", [some 1, some 2]), ("B", [some 3])]

/-- Concrete run produced by `oneWayAnalyze constStats wt6`. -/
def wr6 : OneWayRun := ⟨["A", "B"], true, true, .ttest, 1/2, none⟩

/-- Oracle for the C7 witness: Levene and Kruskal-Wallis report p = 0.01,
the rest p = 1/2. -/
def stats7 : Stats :=
  ⟨fun _ => 1/2, fun _ => 1/100, fun _ _ => 1/2, fun _ _ => 1/2, fun _ _ => 1/2,
   fun _ => 1/2, fun _ => 1/100, fun _ => []⟩

/-- Witness table for C7: three one-value groups. -/
def wt7 : WideTable := [("A", [some 1]), ("B", [some 2]), ("C", [some 3])]

/-- Bonferroni block produced on `wt7`. -/
def wb7 : PosthocBonf := ⟨[("A", "B"), ("A", "C"), ("B", "C")], (1/20 : ℚ) / ((3 : ℕ) : ℚ), []⟩

/-- Concrete run produced by `oneWayAnalyze stats7 wt7`. -/
def wr7 : OneWayRun := ⟨["A", "B", "C"], true, false, .kruskal, 1/100, some (.bonf wb7)⟩

/-- Values recorded for group `g` in the long format. -/
def valuesOf (g : String) (l : List (String × ℚ)) : List ℚ :=
  l.filterMap (fun p => if p.1 = g then some p.2 else none)

/-- Witness table for C9 and its column swap. -/
def wt9 : WideTable := [("A", [some 1, none, some 2]), ("B", [some 3])]

/-- Column-permuted version of `wt9`. -/
def wt9s : WideTable := [("B", [some 3]), ("A", [some 1, none, some 2])]

/-- A contingency input: the count cells of the data columns (all columns
after the first, label, column), as entered. -/
abbrev ContTable := List (List (Option ℚ))

/-- Cell coercion of the contingency module (line 338):
`apply(to_numeric, errors='coerce').fillna(0)` — a cell that fails coercion
becomes the count 0. -/
def contObserved (t : ContTable) : List (List ℚ) :=
  t.map (fun row => row.map (fun c => c.getD 0))

/-- Row sums of the observed matrix. -/
def rowTotals (m : List (List ℚ)) : List ℚ := m.map List.sum

/-- Column sums of the observed matrix, numpy sum(axis=0): pointwise sum of
the rows (which pandas guarantees have equal length). -/
def colTotals : List (List ℚ) → List ℚ
  | [] => []
  | [r] => r
  | r :: rs => List.zipWith (· + ·) r (colTotals rs)

/-- Grand total `observed.sum()`. -/
def grandTotal (m : List (List ℚ)) : ℚ := (rowTotals m).sum

/-- scipy expected frequencies under independence:
`outer(rowTotals, colTotals) / grandTotal`. -/
def expectedFreq (m : List (List ℚ)) : List (List ℚ) :=
  (rowTotals m).map (fun r => (colTotals m).map (fun c => r * c / grandTotal m))

/-- Minimum entry, `ex.min()` (only used on nonempty matrices, as numpy
raises on an empty one). -/
def matrixMin (m : List (List ℚ)) : ℚ :=
  match m.flatten with
  | [] => 0
  | x :: xs => xs.foldl min x

/-- numpy `.shape` of the (rectangular) observed matrix. -/
def mshape (m : List (List ℚ)) : Nat × Nat := (m.length, (m.headD []).length)

/-- Message of scipy's negative-entry ValueError. -/
def negativeMsg : String := "All values in observed must be nonnegative."

/-- Message of scipy's empty-input ValueError. -/
def sizeZeroMsg : String := "No data; observed has size 0."

/-- Message of scipy's zero-expected-frequency ValueError. -/
def zeroExpectedMsg : String :=
  "The internally computed table of expected frequencies has a zero element."

/-- Oracle p-values for the scipy calls of the contingency module. -/
structure ContStats where
  chi2 : List (List ℚ) → ℚ
  fisher_exact : List (List ℚ) → ℚ

/-- scipy `chi2_contingency` as the module uses it: validate the input,
compute the expected frequencies, raise on a zero expected entry, otherwise
report the (oracle) chi-square p-value together with the expected matrix.
At grand total 0 (an all-zero table, since negative entries were already
rejected) scipy computes NaN expected frequencies (0/0) and its
`any(expected == 0)` check is false, so nothing is raised; the
zero-expected check is therefore guarded by a nonzero grand total.  On that
path scipy returns a NaN expected matrix where this model returns the
ℚ-computed zero matrix; the only downstream reader is the `min_ex < 5`
test, whose outcome for an all-zero 2×2 table is irrelevant (grand total
0 < 40 already selects Fisher, as in the source), while for a larger
all-zero table the model emits the reliability warning where NaN
comparisons would not. -/
def chi2_contingency (s : ContStats) (observed : List (List ℚ)) :
    Except String (ℚ × List (List ℚ)) :=
  if observed.any (fun r => r.any (fun x => decide (x < 0))) then .error negativeMsg
  else if observed.flatten.isEmpty then .error sizeZeroMsg
  else if grandTotal observed ≠ 0 ∧
      (expectedFreq observed).any (fun r => r.any (fun x => decide (x = 0))) then
    .error zeroExpectedMsg
  else .ok (s.chi2 observed, expectedFreq observed)

/-- Tests the contingency module can recommend (lines 349-355). -/
inductive ContMethod
  | chisquare
  | fisher
deriving DecidableEq, Repr

/-- Outcome of the contingency module: a result (method, reliability warning
flag, p-value, significant-association conclusion) or the generic caught
error (lines 369-370). -/
inductive ContOutcome
  | ok (method : ContMethod) (warn : Bool) (p : ℚ) (significant : Bool)
  | caughtError (msg : String)
deriving DecidableEq, Repr

/-- Generic handler message of the contingency module (line 370), to which
the raised error's text is appended. -/
def contErrPrefix : String := "分析出错：请确保除第一列外，其他列均为纯数字。\n错误信息: "

/-- Contingency pipeline (lines 332-370): coerce the counts (non-numeric →
0), run chi-square first to obtain the expected frequencies, then pick
Fisher for a 2×2 table with grand total < 40 or a minimum expected count
< 5; otherwise keep chi-square, warning when a minimum expected count < 5
occurs outside the 2×2 case; conclude significance at p < 0.05.  Everything
runs inside the try block whose handler produces `caughtError`. -/
def contAnalyze (s : ContStats) (t : ContTable) : ContOutcome :=
  let observed := contObserved t
  match chi2_contingency s observed with
  | .error e => .caughtError (contErrPrefix ++ e)
  | .ok (p, ex) =>
    let totalN := grandTotal observed
    let minEx := matrixMin ex
    if mshape observed = (2, 2) ∧ (totalN < 40 ∨ minEx < 5) then
      let pf := s.fisher_exact observed
      .ok .fisher false pf (decide (pf < 1/20))
    else if minEx < 5 then
      .ok .chisquare true p (decide (p < 1/20))
    else
      .ok .chisquare false p (decide (p < 1/20))

/-- Constant contingency oracle: both tests report p = 1/2. -/
def constContStats : ContStats := ⟨fun _ => 1/2, fun _ => 1/2⟩

/-- Witness table for C3: the spec's featured 2×2 example with grand total
20 and minimum expected count below 5, which must go to Fisher. -/
def ct3 : ContTable := [[some 2, some 8], [some 3, some 7]]

/-- Witness table for C10: a 2×2 table whose first row totals zero. -/
def ct10 : ContTable := [[some 0, some 0], [some 1, some 2]]

/-- All-zero 2×2 table for the C10 counterexample: both row totals (and both
column totals) are zero, so the claim covers it, yet scipy's NaN
expected-frequency path raises nothing and the analysis returns a Fisher
decision. -/
def ctAllZero : ContTable := [[some 0, some 0], [some 0, some 0]]

/-- Degenerate table for C5: its first row totals zero, one of the claim's
listed degenerate cases. -/
def ct5 : ContTable := [[some 0, some 0], [some 1, some 2]]

/-- Witness table for C5: only one usable column. -/
def wt5 : WideTable := [("A", [none, none]), ("B", [some 1])]

/-- A two-way matrix row: the first-column label and the named data cells. -/
abbrev TwoWayRow := String × List (String × Option ℚ)

/-- Cell access of the two-way module,
`pd.to_numeric(row[c], errors='coerce')` (lines 262 and 266): look the named
column up in the row; `none` when the cell is absent or fails coercion. -/
def cellVal (row : TwoWayRow) (c : String) : Option ℚ :=
  ((row.2.find? (fun p => p.1 == c)).map Prod.snd).getD none

/-- Long-record construction of the two-way module (lines 257-268): per
matrix row, first the columns assigned to Factor-B level 1 and then those of
level 2, keeping one (Factor A level, Factor B level, value) record per
coercible cell and dropping the rest. -/
def buildLong (g1 g2 : String) (g1cols g2cols : List String)
    (rows : List TwoWayRow) : List (String × String × ℚ) :=
  rows.flatMap (fun row =>
    g1cols.filterMap (fun c => (cellVal row c).map (fun v => (row.1, g1, v))) ++
    g2cols.filterMap (fun c => (cellVal row c).map (fun v => (row.1, g2, v))))

/-- Oracle outcomes of the statsmodels calls of the two-way module:
`anova_lm` yields the p-values of Factor A, Factor B and the interaction,
`tukey` the significant (reject = True) pairs over the combined (A + B)
cells; either call may raise, which the module's handler catches. -/
structure TwoWayStats where
  anova_lm : List (String × String × ℚ) → Except String (ℚ × ℚ × ℚ)
  tukey : List (String × String × ℚ) → Except String (List (String × String × ℚ))

/-- Error shown when a Factor-B level has no assigned column (line 254). -/
def twoWayEmptyMsg : String := "请确保每个分组至少分配了一列数据。"

/-- Generic handler message of the two-way module (line 310), to which the
raised error's text is appended. -/
def twoWayErrPrefix : String := "分析出错，请检查输入数据是否包含非数字字符。错误: "

/-- Everything a successful two-way run reports: the three p-values, the
interaction flag (line 285), whether the Tukey post-hoc ran, and its
significant pairs. -/
structure TwoWayRun where
  pA : ℚ
  pB : ℚ
  pInt : ℚ
  interactionSig : Bool
  posthocRun : Bool
  sigPairs : List (String × String × ℚ)
deriving DecidableEq, Repr

/-- Outcome of the two-way module. -/
inductive TwoWayOutcome
  | emptyGroupCols (msg : String)
  | ok (r : TwoWayRun)
  | caughtError (msg : String)
deriving DecidableEq, Repr

/-- Two-way pipeline (lines 251-310): guard on empty column assignments,
build the long records, fit the model and read the three p-values, flag the
interaction, then always run the Tukey HSD post-hoc on the (A + B) cell
combinations — lines 290-299 place no significance condition before the
Tukey call; any raised error is caught by the generic handler. -/
def twoWayAnalyze (s : TwoWayStats) (g1 g2 : String) (g1cols g2cols : List String)
    (rows : List TwoWayRow) : TwoWayOutcome :=
  if g1cols.isEmpty || g2cols.isEmpty then .emptyGroupCols twoWayEmptyMsg
  else
    match s.anova_lm (buildLong g1 g2 g1cols g2cols rows) with
    | .error e => .caughtError (twoWayErrPrefix ++ e)
    | .ok (pA, pB, pInt) =>
      match s.tukey (buildLong g1 g2 g1cols g2cols rows) with
      | .error e => .caughtError (twoWayErrPrefix ++ e)
      | .ok sig => .ok ⟨pA, pB, pInt, decide (pInt < 1/20), true, sig⟩

/-- Constant two-way oracle: all three p-values are 1/2, no significant
Tukey pair. -/
def constTwoWayStats : TwoWayStats :=
  ⟨fun _ => .ok (1/2, 1/2, 1/2), fun _ => .ok []⟩

/-- Concrete two-way matrix for C8. -/
def rows8 : List TwoWayRow :=
  [("Light", [("A1", some 24), ("B1", some 20)]),
   ("Heavy", [("A1", some 17), ("B1", some 14)])]

/-- Run produced on `rows8` by the constant oracle. -/
def wr8 : TwoWayRun := ⟨1/2, 1/2, 1/2, false, true, []⟩

/-- Numeric values the one-way module passes to the statistics layer, across
all kept groups. -/
def oneWayValues (t : WideTable) : List ℚ := (clean_data t).flatMap Prod.snd

/-- Cells of a table that coerce numerically, in reading order. -/
def coercibleCells (t : List (List (Option ℚ))) : List ℚ := t.flatten.filterMap id

/-- Counts the contingency module passes to the statistics layer. -/
def contValues (t : ContTable) : List ℚ := (contObserved t).flatten

/-- Contingency table for C4 with one non-numeric cell. -/
def ct4 : ContTable := [[some 2, none], [some 30, some 30]]

/-- Same table with 38 in place of the failing cell. -/
def ct4filled : ContTable := [[some 2, some 38], [some 30, some 30]]

/-- C1: for every one-way input with three or more non-empty groups, the
selector chooses one-way ANOVA iff all tested groups passed Shapiro and
Levene passed; in every other case it chooses Kruskal-Wallis. -/
theorem C1_kSample_selection (s : Stats) (t : WideTable) (r : OneWayRun)
    (hr : oneWayAnalyze s t = .result r) (hk : 3 ≤ r.groups.length) :
    (r.method = Method.anova ↔ (r.allNormal = true ∧ r.isHomo = true)) ∧
    (r.method ≠ Method.anova → r.method = Method.kruskal) := by
  simp only [oneWayAnalyze] at hr
  split at hr
  · exact absurd hr (by simp)
  · rw [OneWayOutcome.result.injEq] at hr
    subst hr
    simp only at hk ⊢
    rw [if_neg (by omega)]
    cases han : all_normal s (clean_data t) <;>
      cases hih : is_homo s ((clean_data t).map Prod.snd) <;> simp

theorem C1_kSample_selection_witness :
    (oneWayAnalyze constStats wt1 = .result wr1 ∧ 3 ≤ wr1.groups.length) ∧
    (wr1.method = Method.anova ↔ (wr1.allNormal = true ∧ wr1.isHomo = true)) :=
  ⟨⟨by with_unfolding_all decide, by decide⟩,
   (C1_kSample_selection constStats wt1 wr1 (by with_unfolding_all decide) (by decide)).1⟩

/-- C2: with exactly two non-empty groups, the selector chooses the
equal-variance t-test iff normal and homogeneous, Welch's t-test iff normal
and not homogeneous, and Mann-Whitney U iff normality failed, regardless of
homogeneity. -/
theorem C2_twoSample_selection (s : Stats) (t : WideTable) (r : OneWayRun)
    (hr : oneWayAnalyze s t = .result r) (hk : r.groups.length = 2) :
    (r.method = Method.ttest ↔ (r.allNormal = true ∧ r.isHomo = true)) ∧
    (r.method = Method.welch ↔ (r.allNormal = true ∧ r.isHomo = false)) ∧
    (r.method = Method.mannwhitney ↔ r.allNormal = false) := by
  simp only [oneWayAnalyze] at hr
  split at hr
  · exact absurd hr (by simp)
  · rw [OneWayOutcome.result.injEq] at hr
    subst hr
    simp only at hk ⊢
    rw [if_pos hk]
    cases han : all_normal s (clean_data t) <;>
      cases hih : is_homo s ((clean_data t).map Prod.snd) <;> simp

theorem C2_twoSample_selection_witness :
    (oneWayAnalyze constStats wt2 = .result wr2 ∧ wr2.groups.length = 2) ∧
    (wr2.method = Method.ttest ↔ (wr2.allNormal = true ∧ wr2.isHomo = true)) :=
  ⟨⟨by with_unfolding_all decide, by decide⟩,
   (C2_twoSample_selection constStats wt2 wr2 (by with_unfolding_all decide) (by decide)).1⟩

/-- Helper: the normality fold ignores a group with fewer than 3 observations
wherever it sits in the list. -/
theorem all_normal_skips_small (s : Stats) (xs ys : List (String × List ℚ))
    (g : String × List ℚ) (hg : g.2.length < 3) :
    all_normal s (xs ++ g :: ys) = all_normal s (xs ++ ys) := by
  unfold all_normal
  rw [List.foldl_append, List.foldl_append, List.foldl_cons, if_neg (by omega)]

/-- Helper: when every group is below the normality sample-size floor, the
flag keeps its `True` initialization. -/
theorem all_normal_vacuous (s : Stats) (cd : List (String × List ℚ))
    (h : ∀ g ∈ cd, g.2.length < 3) : all_normal s cd = true := by
  unfold all_normal
  induction cd with
  | nil => rfl
  | cons g gs ih =>
    rw [List.foldl_cons, if_neg (by have := h g (by simp); omega)]
    exact ih (fun x hx => h x (by simp [hx]))

/-- C6: groups with fewer than 3 observations are skipped by the normality
diagnostic without affecting `all_normal`; with no testable group the flag is
vacuously true, so the selection is decided by homogeneity alone. -/
theorem C6_vacuous_normality (s : Stats) (t : WideTable) (r : OneWayRun)
    (hr : oneWayAnalyze s t = .result r)
    (hsmall : ∀ g ∈ clean_data t, g.2.length < 3)
    (xs ys : List (String × List ℚ)) (g : String × List ℚ) (hg : g.2.length < 3) :
    r.allNormal = true ∧
    r.method = (if r.isHomo then
        (if r.groups.length = 2 then Method.ttest else Method.anova)
      else
        (if r.groups.length = 2 then Method.welch else Method.kruskal)) ∧
    all_normal s (xs ++ g :: ys) = all_normal s (xs ++ ys) := by
  refine ⟨?_, ?_, all_normal_skips_small s xs ys g hg⟩ <;>
  · simp only [oneWayAnalyze] at hr
    split at hr
    · exact absurd hr (by simp)
    · rw [OneWayOutcome.result.injEq] at hr
      subst hr
      have han := all_normal_vacuous s (clean_data t) hsmall
      by_cases h2 : (clean_data t).length = 2 <;>
        cases hih : is_homo s ((clean_data t).map Prod.snd) <;>
          simp [han, h2, hih, List.length_map]

theorem C6_vacuous_normality_witness :
    ((oneWayAnalyze constStats wt6 = .result wr6) ∧
      (∀ g ∈ clean_data wt6, g.2.length < 3) ∧ (("X", [(1 : ℚ)]) : String × List ℚ).2.length < 3) ∧
    (wr6.allNormal = true ∧
      all_normal constStats [("X", [(1 : ℚ)])] = all_normal constStats []) := by
  have hr : oneWayAnalyze constStats wt6 = .result wr6 := by with_unfolding_all decide
  have hs : ∀ g ∈ clean_data wt6, g.2.length < 3 := by decide
  have h := C6_vacuous_normality constStats wt6 wr6 hr hs [] [] ("X", [(1 : ℚ)]) (by decide)
  exact ⟨⟨hr, hs, by decide⟩, h.1, h.2.2⟩

/-- Helper: `itertools.combinations(l, 2)` yields n·(n−1)/2 pairs (stated
doubled to stay in `ℕ`). -/
theorem combinations2_length {α : Type} (l : List α) :
    2 * (combinations2 l).length = l.length * (l.length - 1) := by
  induction l with
  | nil => rfl
  | cons x xs ih =>
    simp only [combinations2, List.length_append, List.length_map, List.length_cons]
    rw [Nat.mul_add, ih]
    cases hn : xs.length with
    | zero => rfl
    | succ m => simp only [Nat.succ_sub_one]; ring

/-- Helper: pair count as the source states it. -/
theorem combinations2_length_div {α : Type} (l : List α) :
    (combinations2 l).length = l.length * (l.length - 1) / 2 := by
  have h := combinations2_length l
  omega

/-- Helper: the post-hoc block runs exactly under its guard. -/
theorem posthocBlock_isSome (s : Stats) (cd : List (String × List ℚ))
    (groups : List String) (method : Method) (pVal : ℚ) :
    (posthocBlock s cd groups method pVal).isSome ↔
      (pVal < 1/20 ∧ 2 < groups.length) := by
  unfold posthocBlock
  split
  · next h => simpa using h
  · next h => simpa using h

/-- Helper: what a Bonferroni post-hoc block contains. -/
theorem posthocBlock_bonf (s : Stats) (cd : List (String × List ℚ))
    (groups : List String) (method : Method) (pVal : ℚ) (b : PosthocBonf)
    (hb : posthocBlock s cd groups method pVal = some (.bonf b)) :
    b.pairs = combinations2 groups ∧
    b.adjAlpha = (1/20 : ℚ) / (b.pairs.length : ℚ) := by
  unfold posthocBlock at hb
  split at hb
  · split at hb
    · exact absurd hb (by simp)
    · rw [Option.some.injEq, PosthocResult.bonf.injEq] at hb
      subst hb
      exact ⟨rfl, rfl⟩
  · exact absurd hb (by simp)

/-- C7: post-hoc runs exactly when the overall p-value is below 0.05 and more
than two groups are compared; on the rank-based (Bonferroni Mann-Whitney)
path it examines k·(k−1)/2 pairs and its corrected alpha is 0.05 divided by
that pair count. -/
theorem C7_posthoc_trigger (s : Stats) (t : WideTable) (r : OneWayRun)
    (hr : oneWayAnalyze s t = .result r) :
    (r.posthoc.isSome ↔ (r.pVal < 1/20 ∧ 2 < r.groups.length)) ∧
    (∀ b, r.posthoc = some (.bonf b) →
      b.pairs.length = r.groups.length * (r.groups.length - 1) / 2 ∧
      b.adjAlpha = (1/20 : ℚ) / (b.pairs.length : ℚ)) := by
  simp only [oneWayAnalyze] at hr
  split at hr
  · exact absurd hr (by simp)
  · rw [OneWayOutcome.result.injEq] at hr
    subst hr
    refine ⟨posthocBlock_isSome _ _ _ _ _, fun b hb => ?_⟩
    have h2 := posthocBlock_bonf _ _ _ _ _ b hb
    refine ⟨?_, h2.2⟩
    rw [h2.1]
    exact combinations2_length_div _

theorem C7_posthoc_trigger_witness :
    (oneWayAnalyze stats7 wt7 = .result wr7) ∧
    (wr7.posthoc.isSome ↔ (wr7.pVal < 1/20 ∧ 2 < wr7.groups.length)) ∧
    wb7.pairs.length = wr7.groups.length * (wr7.groups.length - 1) / 2 ∧
    wb7.adjAlpha = (1/20 : ℚ) / (wb7.pairs.length : ℚ) := by
  have hr : oneWayAnalyze stats7 wt7 = .result wr7 := by with_unfolding_all decide
  have h := C7_posthoc_trigger stats7 wt7 wr7 hr
  exact ⟨hr, h.1, (h.2 wb7 rfl).1, (h.2 wb7 rfl).2⟩

theorem valuesOf_append (g : String) (a b : List (String × ℚ)) :
    valuesOf g (a ++ b) = valuesOf g a ++ valuesOf g b :=
  List.filterMap_append a b _

theorem valuesOf_block (g h : String) (vs : List ℚ) :
    valuesOf g (vs.map (fun v => (h, v))) = if h = g then vs else [] := by
  unfold valuesOf
  rw [List.filterMap_map]
  by_cases hh : h = g <;>
    simp [hh, Function.comp_def, List.filterMap_some]

theorem longData_cons (c : String × List ℚ) (cs : List (String × List ℚ)) :
    longData (c :: cs) = c.2.map (fun v => (c.1, v)) ++ longData cs := by
  unfold longData
  rw [List.flatMap_cons]

theorem valuesOf_longData_notMem (g : String) (cd : List (String × List ℚ))
    (h : g ∉ cd.map Prod.fst) : valuesOf g (longData cd) = [] := by
  induction cd with
  | nil => rfl
  | cons c cs ih =>
    rw [List.map_cons, List.mem_cons, not_or] at h
    rw [longData_cons, valuesOf_append, valuesOf_block,
      if_neg (fun hc => h.1 hc.symm), ih h.2]
    rfl

theorem valuesOf_longData_mem (cd : List (String × List ℚ))
    (hn : (cd.map Prod.fst).Nodup) (g : String) (vs : List ℚ)
    (h : (g, vs) ∈ cd) : valuesOf g (longData cd) = vs := by
  induction cd with
  | nil => cases h
  | cons c cs ih =>
    rw [List.map_cons, List.nodup_cons] at hn
    rw [longData_cons, valuesOf_append, valuesOf_block]
    rcases List.mem_cons.mp h with h1 | h1
    · rw [← h1, if_pos rfl, valuesOf_longData_notMem g cs (by rw [← h1] at hn; exact hn.1),
        List.append_nil]
    · have hne : c.1 ≠ g := by
        intro hc
        exact hn.1 (hc ▸ List.mem_map.mpr ⟨(g, vs), h1, rfl⟩)
      rw [if_neg hne, ih hn.2 h1]
      rfl

theorem clean_data_names_sublist (t : WideTable) :
    List.Sublist ((clean_data t).map Prod.fst) (t.map Prod.fst) := by
  unfold clean_data
  have h1 : List.Sublist (((t.map (fun c => (c.1, validVals c.2))).filter
        (fun c => decide (0 < c.2.length))).map Prod.fst)
      ((t.map (fun c => (c.1, validVals c.2))).map Prod.fst) :=
    (List.filter_sublist _).map _
  rwa [List.map_map] at h1

theorem mem_clean_data (t : WideTable) (g : String) (col : List (Option ℚ))
    (h : (g, col) ∈ t) (hne : validVals col ≠ []) :
    (g, validVals col) ∈ clean_data t := by
  unfold clean_data
  refine List.mem_filter.mpr ⟨List.mem_map.mpr ⟨(g, col), h, rfl⟩, ?_⟩
  simpa [List.length_pos] using hne

theorem clean_data_mem_src (t : WideTable) (e : String × List ℚ)
    (h : e ∈ clean_data t) :
    ∃ col, (e.1, col) ∈ t ∧ validVals col = e.2 ∧ e.2 ≠ [] := by
  unfold clean_data at h
  obtain ⟨hm, hp⟩ := List.mem_filter.mp h
  obtain ⟨c, hc, he⟩ := List.mem_map.mp hm
  subst he
  refine ⟨c.2, by simpa using hc, rfl, ?_⟩
  simpa [← List.length_pos] using hp

theorem nodup_fst_inj {α : Type} {l : List (String × α)}
    (hn : (l.map Prod.fst).Nodup) {g : String} {a b : α}
    (ha : (g, a) ∈ l) (hb2 : (g, b) ∈ l) : a = b := by
  induction l with
  | nil => cases ha
  | cons c cs ih =>
    rw [List.map_cons, List.nodup_cons] at hn
    rcases List.mem_cons.mp ha with h1 | h1 <;> rcases List.mem_cons.mp hb2 with h2 | h2
    · rw [← h1] at h2
      injection h2 with h2a h2b
      exact h2b.symm
    · exfalso
      apply hn.1
      rw [← h1]
      exact List.mem_map.mpr ⟨(g, b), h2, rfl⟩
    · exfalso
      apply hn.1
      rw [← h2]
      exact List.mem_map.mpr ⟨(g, a), h1, rfl⟩
    · exact ih hn.2 h1 h2

/-- C9: with distinctly named columns, the wide-to-long reshape preserves, per
group, exactly the column's coercible values (in order, hence as a multiset),
and permuting the columns only permutes the long records. -/
theorem C9_reshape_roundtrip (t : WideTable) (hn : (t.map Prod.fst).Nodup) :
    (∀ gp ∈ t, valuesOf gp.1 (longData (clean_data t)) = validVals gp.2) ∧
    (∀ t' : WideTable, t.Perm t' →
      (longData (clean_data t)).Perm (longData (clean_data t'))) := by
  constructor
  · rintro ⟨g, col⟩ hgp
    by_cases hne : validVals col = []
    · rw [hne]
      refine valuesOf_longData_notMem g (clean_data t) (fun hg => ?_)
      obtain ⟨e, he, hfst⟩ := List.mem_map.mp hg
      obtain ⟨col', hcol', hval, hne'⟩ := clean_data_mem_src t e he
      rw [hfst] at hcol'
      have : col' = col := nodup_fst_inj hn hcol' hgp
      exact hne' (by rw [← hval, this, hne])
    · have hmem := mem_clean_data t g col hgp hne
      have hcd : ((clean_data t).map Prod.fst).Nodup :=
        hn.sublist (clean_data_names_sublist t)
      exact valuesOf_longData_mem (clean_data t) hcd g (validVals col) hmem
  · intro t' hp
    unfold longData clean_data
    exact ((hp.map _).filter _).flatMap_right _

theorem C9_reshape_roundtrip_witness :
    ((wt9.map Prod.fst).Nodup ∧ ("A", [some 1, none, some 2]) ∈ wt9 ∧ wt9.Perm wt9s) ∧
    (valuesOf "A" (longData (clean_data wt9)) = [1, 2] ∧
      (longData (clean_data wt9)).Perm (longData (clean_data wt9s))) := by
  have hn : (wt9.map Prod.fst).Nodup := by decide
  have hmem : (("A", [some 1, none, some 2]) : String × List (Option ℚ)) ∈ wt9 := by decide
  have hperm : wt9.Perm wt9s := by decide
  have h := C9_reshape_roundtrip wt9 hn
  exact ⟨⟨hn, hmem, hperm⟩, h.1 _ hmem, h.2 wt9s hperm⟩

/-- Helper: a successful `chi2_contingency` returns the expected matrix. -/
theorem chi2_contingency_ok (s : ContStats) (o : List (List ℚ)) (p : ℚ)
    (ex : List (List ℚ)) (h : chi2_contingency s o = .ok (p, ex)) :
    ex = expectedFreq o := by
  unfold chi2_contingency at h
  split at h
  · exact absurd h (by simp)
  · split at h
    · exact absurd h (by simp)
    · split at h
      · exact absurd h (by simp)
      · rw [Except.ok.injEq, Prod.mk.injEq] at h
        exact h.2.symm

/-- C3: on every contingency table the module analyzes successfully, Fisher
is chosen iff the table is 2×2 with grand total < 40 or minimum expected
count < 5; otherwise chi-square is chosen; and a table larger than 2×2 with
minimum expected count < 5 gets the reliability warning while still
reporting chi-square. -/
theorem C3_cont_selection (s : ContStats) (t : ContTable) (m : ContMethod)
    (w : Bool) (p : ℚ) (c : Bool)
    (hr : contAnalyze s t = .ok m w p c) :
    (m = ContMethod.fisher ↔
      (mshape (contObserved t) = (2, 2) ∧
        (grandTotal (contObserved t) < 40 ∨
          matrixMin (expectedFreq (contObserved t)) < 5))) ∧
    (¬(mshape (contObserved t) = (2, 2) ∧
        (grandTotal (contObserved t) < 40 ∨
          matrixMin (expectedFreq (contObserved t)) < 5)) →
      m = ContMethod.chisquare) ∧
    ((2 < (contObserved t).length ∨ 2 < ((contObserved t).headD []).length) ∧
        matrixMin (expectedFreq (contObserved t)) < 5 →
      w = true ∧ m = ContMethod.chisquare) := by
  simp only [contAnalyze] at hr
  cases hmat : chi2_contingency s (contObserved t) with
  | error e => rw [hmat] at hr; exact absurd hr (by simp)
  | ok pe =>
    obtain ⟨p', ex⟩ := pe
    have hex := chi2_contingency_ok s (contObserved t) p' ex hmat
    subst hex
    rw [hmat] at hr
    dsimp only at hr
    have hshape : mshape (contObserved t) = (2, 2) →
        ¬(2 < (contObserved t).length ∨ 2 < ((contObserved t).headD []).length) := by
      intro hsp
      unfold mshape at hsp
      rw [Prod.mk.injEq] at hsp
      omega
    split at hr
    · next hcond =>
      rw [ContOutcome.ok.injEq] at hr
      obtain ⟨hm, hw, hp, hc⟩ := hr
      subst hm; subst hw
      exact ⟨by simp [hcond], fun hn => absurd hcond hn,
        fun hlarge => absurd (hlarge.1) (hshape hcond.1)⟩
    · next hcond =>
      split at hr
      · next hmin =>
        rw [ContOutcome.ok.injEq] at hr
        obtain ⟨hm, hw, hp, hc⟩ := hr
        subst hm; subst hw
        exact ⟨by simp [hcond], fun _ => rfl, fun _ => ⟨rfl, rfl⟩⟩
      · next hmin =>
        rw [ContOutcome.ok.injEq] at hr
        obtain ⟨hm, hw, hp, hc⟩ := hr
        subst hm; subst hw
        exact ⟨by simp [hcond], fun _ => rfl, fun hlarge => absurd hlarge.2 hmin⟩

theorem C3_cont_selection_witness :
    contAnalyze constContStats ct3 = .ok .fisher false (1/2) false ∧
    (ContMethod.fisher = ContMethod.fisher ↔
      (mshape (contObserved ct3) = (2, 2) ∧
        (grandTotal (contObserved ct3) < 40 ∨
          matrixMin (expectedFreq (contObserved ct3)) < 5))) := by
  have hr : contAnalyze constContStats ct3 = .ok .fisher false (1/2) false := by
    with_unfolding_all decide
  exact ⟨hr, (C3_cont_selection constContStats ct3 _ _ _ _ hr).1⟩

/-- C10 (amended): chi-square's expected-frequency computation runs before
the Fisher-vs-chi-square branch, so a 2×2 table with a zero row or column
total and a nonzero grand total makes `chi2_contingency` raise and lands in
the generic handler — a Fisher decision is never returned for it.  The
all-zero 2×2 table is the exception the counterexample records: there
nothing is raised and a Fisher decision is returned. -/
theorem C10_zero_margin_caught (s : ContStats) (t : ContTable)
    (h22 : mshape (contObserved t) = (2, 2))
    (hrect : ∀ r ∈ contObserved t, r.length = 2)
    (hzero : 0 ∈ rowTotals (contObserved t) ∨ 0 ∈ colTotals (contObserved t))
    (htot : grandTotal (contObserved t) ≠ 0) :
    (∃ e, contAnalyze s t = .caughtError e) ∧
    (∀ w p c, contAnalyze s t ≠ ContOutcome.ok .fisher w p c) := by
  have herr : ∃ e, chi2_contingency s (contObserved t) = .error e := by
    generalize hG : contObserved t = o at h22 hrect hzero htot
    unfold mshape at h22
    rw [Prod.mk.injEq] at h22
    obtain ⟨r1, r2, rfl⟩ := List.length_eq_two.mp h22.1
    obtain ⟨a, b, rfl⟩ := List.length_eq_two.mp (hrect r1 (by simp))
    obtain ⟨c, d, rfl⟩ := List.length_eq_two.mp (hrect r2 (by simp))
    by_cases hneg :
        ([[a, b], [c, d]].any (fun r => r.any (fun x => decide (x < 0)))) = true
    · exact ⟨negativeMsg, by unfold chi2_contingency; rw [if_pos hneg]⟩
    · refine ⟨zeroExpectedMsg, ?_⟩
      unfold chi2_contingency
      rw [if_neg hneg, if_neg (by simp), if_pos (And.intro htot ?_)]
      simp only [expectedFreq, rowTotals, colTotals, grandTotal, List.map_cons,
        List.map_nil, List.sum_cons, List.sum_nil, List.zipWith_cons_cons,
        List.zipWith_nil_right, List.zipWith_nil_left, add_zero, List.any_cons,
        List.any_nil, Bool.or_eq_true, Bool.or_false, decide_eq_true_eq,
        List.mem_cons, List.mem_singleton, List.not_mem_nil, or_false] at hzero ⊢
      rcases hzero with (h | h) | (h | h) <;> rw [← h] <;>
        simp [zero_mul, mul_zero, zero_div]
  obtain ⟨e, he⟩ := herr
  constructor
  · refine ⟨contErrPrefix ++ e, ?_⟩
    simp only [contAnalyze]
    rw [he]
  · intro w p c hc
    simp only [contAnalyze] at hc
    rw [he] at hc
    exact absurd hc (by simp)

/-- C10 counterexample: the all-zero 2×2 table has a zero row total, yet
the analysis returns a Fisher decision — `chi2_contingency` raises nothing
on the NaN expected-frequency path (grand total 0) and the Fisher branch is
selected by grand total 0 < 40 — instead of falling through to the generic
error handler. -/
theorem C10_zero_margin_counterexample :
    (mshape (contObserved ctAllZero) = (2, 2) ∧
      0 ∈ rowTotals (contObserved ctAllZero)) ∧
    contAnalyze constContStats ctAllZero = .ok .fisher false (1/2) false := by
  refine ⟨⟨by with_unfolding_all decide, by with_unfolding_all decide⟩,
    by with_unfolding_all decide⟩

theorem C10_zero_margin_caught_witness :
    (mshape (contObserved ct10) = (2, 2) ∧
      (∀ r ∈ contObserved ct10, r.length = 2) ∧
      (0 ∈ rowTotals (contObserved ct10) ∨ 0 ∈ colTotals (contObserved ct10)) ∧
      grandTotal (contObserved ct10) ≠ 0) ∧
    (∃ e, contAnalyze constContStats ct10 = .caughtError e) := by
  have h1 : mshape (contObserved ct10) = (2, 2) := by with_unfolding_all decide
  have h2 : ∀ r ∈ contObserved ct10, r.length = 2 := by decide
  have h3 : 0 ∈ rowTotals (contObserved ct10) ∨ 0 ∈ colTotals (contObserved ct10) := by
    with_unfolding_all decide
  have h4 : grandTotal (contObserved ct10) ≠ 0 := by with_unfolding_all decide
  exact ⟨⟨h1, h2, h3, h4⟩,
    (C10_zero_margin_caught constContStats ct10 h1 h2 h3 h4).1⟩

/-- C5 counterexample: the degenerate table `ct5` is answered by the generic
handler whose message is the non-numeric-data hint with the raw scipy error
text appended verbatim — the raw library-level numerical error is surfaced,
and no insufficient-data condition naming the zero-margin deficiency is
produced. -/
theorem C5_counterexample :
    (0 ∈ rowTotals (contObserved ct5) ∧ grandTotal (contObserved ct5) ≠ 0) ∧
    contAnalyze constContStats ct5 = .caughtError (contErrPrefix ++ zeroExpectedMsg) := by
  refine ⟨⟨by with_unfolding_all decide, by with_unfolding_all decide⟩, ?_⟩
  with_unfolding_all rfl

/-- C5 (amended): degenerate one-way inputs (fewer than two usable groups)
get the descriptive too-few-groups warning; the contingency module never
lets a raised error escape — every outcome is either a result or the
generic handler's message wrapping the raised error's text — but it reports
no insufficient-data condition. -/
theorem C5_degenerate_handling (s : Stats) (cs : ContStats) (t : WideTable)
    (ct : ContTable) (hfew : (clean_data t).length < 2) :
    oneWayAnalyze s t = .tooFewGroups oneWayWarnMsg ∧
    ((∃ m w p c, contAnalyze cs ct = ContOutcome.ok m w p c) ∨
      (∃ e, contAnalyze cs ct = .caughtError (contErrPrefix ++ e))) := by
  constructor
  · simp only [oneWayAnalyze]
    rw [if_pos (by simpa [List.length_map] using hfew)]
  · simp only [contAnalyze]
    cases hc : chi2_contingency cs (contObserved ct) with
    | error e => exact Or.inr ⟨e, rfl⟩
    | ok pe =>
      obtain ⟨p, ex⟩ := pe
      dsimp only
      split
      · exact Or.inl ⟨_, _, _, _, rfl⟩
      · split
        · exact Or.inl ⟨_, _, _, _, rfl⟩
        · exact Or.inl ⟨_, _, _, _, rfl⟩

theorem C5_degenerate_handling_witness :
    (clean_data wt5).length < 2 ∧
    oneWayAnalyze constStats wt5 = .tooFewGroups oneWayWarnMsg := by
  have hfew : (clean_data wt5).length < 2 := by decide
  exact ⟨hfew,
    (C5_degenerate_handling constStats constContStats wt5 ct5 hfew).1⟩

/-- C8 counterexample: a successful two-way run in which neither main effect
nor the interaction is significant (all p = 1/2) still runs the Tukey
post-hoc, refuting "triggered exactly when ... significant". -/
theorem C8_counterexample :
    twoWayAnalyze constTwoWayStats "L1" "L2" ["A1"] ["B1"] rows8 = .ok wr8 ∧
    wr8.posthocRun = true ∧
    ¬(wr8.pInt < 1/20 ∨ wr8.pA < 1/20 ∨ wr8.pB < 1/20) := by
  refine ⟨by with_unfolding_all decide, rfl, by with_unfolding_all decide⟩

/-- C8 (amended): the two-way Tukey post-hoc over the (Factor A, Factor B)
cell combinations runs on every successful analysis, with no significance
condition. -/
theorem C8_posthoc_always (s : TwoWayStats) (g1 g2 : String)
    (g1cols g2cols : List String) (rows : List TwoWayRow) (r : TwoWayRun)
    (hr : twoWayAnalyze s g1 g2 g1cols g2cols rows = .ok r) :
    r.posthocRun = true := by
  unfold twoWayAnalyze at hr
  split at hr
  · exact absurd hr (by simp)
  · split at hr
    · exact absurd hr (by simp)
    · split at hr
      · exact absurd hr (by simp)
      · rw [TwoWayOutcome.ok.injEq] at hr
        rw [← hr]

theorem C8_posthoc_always_witness :
    twoWayAnalyze constTwoWayStats "L1" "L2" ["A1"] ["B1"] rows8 = .ok wr8 ∧
    wr8.posthocRun = true := by
  have hr : twoWayAnalyze constTwoWayStats "L1" "L2" ["A1"] ["B1"] rows8 = .ok wr8 := by
    with_unfolding_all decide
  exact ⟨hr, C8_posthoc_always constTwoWayStats "L1" "L2" ["A1"] ["B1"] rows8 wr8 hr⟩

/-- C4 counterexample: in the contingency path a failing cell is not
dropped — the counts passed on contain a substitute 0 — and the substitute
alters the analysis: with the 0 the selector picks Fisher (minimum expected
count below 5), while the same table with 38 in that cell picks
chi-square. -/
theorem C4_coercion_counterexample :
    contValues ct4 ≠ coercibleCells ct4 ∧
    contObserved ct4 = [[2, 0], [30, 30]] ∧
    contAnalyze constContStats ct4 = .ok .fisher false (1/2) false ∧
    contAnalyze constContStats ct4filled = .ok .chisquare false (1/2) false := by
  refine ⟨by with_unfolding_all decide, by with_unfolding_all decide,
    by with_unfolding_all decide, by with_unfolding_all decide⟩

/-- Helper: the one-way module passes on exactly the coercible cells. -/
theorem oneWayValues_eq (t : WideTable) :
    oneWayValues t = coercibleCells (t.map Prod.snd) := by
  unfold oneWayValues coercibleCells
  induction t with
  | nil => rfl
  | cons c cs ih =>
    unfold clean_data
    rw [List.map_cons, List.filter_cons, List.map_cons, List.flatten_cons,
      List.filterMap_append]
    by_cases h : 0 < (validVals c.2).length
    · rw [if_pos (by simpa using h), List.flatMap_cons]
      congr 1
    · rw [if_neg (by simpa using h)]
      have hv : validVals c.2 = [] := by
        cases he : validVals c.2 with
        | nil => rfl
        | cons x xs => rw [he] at h; exact absurd (by simp) h
      rw [show c.2.filterMap id = validVals c.2 from rfl, hv, List.nil_append]
      exact ih

/-- Helper: the two-way module passes on exactly the coercible cells of the
assigned columns. -/
theorem buildLong_values (g1 g2 : String) (g1cols g2cols : List String)
    (rows : List TwoWayRow) :
    (buildLong g1 g2 g1cols g2cols rows).map (fun r => r.2.2) =
      rows.flatMap (fun row =>
        g1cols.filterMap (fun c => cellVal row c) ++
        g2cols.filterMap (fun c => cellVal row c)) := by
  unfold buildLong
  rw [List.map_flatMap]
  congr 1
  funext row
  rw [List.map_append]
  congr 1 <;>
  · rw [List.map_filterMap]
    congr 1
    funext c
    cases cellVal row c <;> rfl

/-- Helper: the contingency module passes on one count per cell, the failing
cells as 0. -/
theorem contValues_eq (ct : ContTable) :
    contValues ct = ct.flatten.map (fun c => c.getD 0) := by
  unfold contValues contObserved
  induction ct with
  | nil => rfl
  | cons r rs ih =>
    rw [List.map_cons, List.flatten_cons, List.flatten_cons, List.map_append, ih]

/-- C4 (amended): the one-way path passes on exactly the coercible cells
(column by column) and the two-way path exactly the coercible cells of the
assigned columns (row by row) — failing cells are dropped there — while the
contingency path maps every failing cell to the count 0 in the observed
matrix instead of dropping it. -/
theorem C4_coercion_amended (t : WideTable) (ct : ContTable) (g1 g2 : String)
    (g1cols g2cols : List String) (rows : List TwoWayRow) :
    oneWayValues t = coercibleCells (t.map Prod.snd) ∧
    (buildLong g1 g2 g1cols g2cols rows).map (fun r => r.2.2) =
      rows.flatMap (fun row =>
        g1cols.filterMap (fun c => cellVal row c) ++
        g2cols.filterMap (fun c => cellVal row c)) ∧
    contValues ct = ct.flatten.map (fun c => c.getD 0) :=
  ⟨oneWayValues_eq t, buildLong_values g1 g2 g1cols g2cols rows, contValues_eq ct⟩

end StatApp
